import Mathlib

set_option maxHeartbeats 1000000

/-!
Shallow embedding of the time-tracker's task lifecycle engine, task query
layer, and terminal control loop command handlers, together with proofs of
the specification's testable properties.

Source files embedded: `storage.js`, `taskManager.js`, `visualMode.js`,
and the line-based interactive command handler.

Timestamps are embedded as integer milliseconds since the Unix epoch.
The source stores ISO-8601 strings, which compare lexicographically exactly
as their instants compare, and converts to `Date` objects (millisecond
integers) before any arithmetic; `Math.floor((end - start) / 1000)` becomes
floor division by 1000 (`Int.fdiv`).
-/

namespace TimeTracker

/-- Timestamps: milliseconds since the Unix epoch. -/
abbrev Time := Int

/-- Task status, the string field `status` in the source. -/
inductive Status where
  | created
  | running
  | paused
  | stopped
deriving DecidableEq, Repr

/-- One tracking session: `{startTime, endTime, duration}`. `endTime = none`
embeds the source's `endTime: null` (an open session). -/
structure Session where
  startTime : Time
  endTime : Option Time
  duration : Int
deriving DecidableEq, Repr

/-- A task record as persisted by `storage.js`. Fields that the source leaves
`undefined`/`null` until first set are embedded as `Option`. -/
structure Task where
  id : Nat
  name : List Char
  url : List Char
  status : Status
  sessions : List Session
  totalTime : Int
  createdAt : Time
  lastStarted : Option Time
  lastPaused : Option Time
  stoppedAt : Option Time
deriving DecidableEq, Repr

/-- The persisted store shape: `{tasks, nextId, lastActiveTaskId}`. -/
structure Store where
  tasks : List Task
  nextId : Nat
  lastActiveTaskId : Option Nat
deriving DecidableEq, Repr

/-- Result of a lifecycle operation: the returned task, or the message of the
thrown `Error`. -/
inductive Outcome where
  | ok (t : Task)
  | err (msg : String)
deriving DecidableEq, Repr

namespace Storage

/-- `storage.getTask(id)`: first task in store order with the given id. -/
def getTask (s : Store) (id : Nat) : Option Task :=
  s.tasks.find? (fun t => t.id == id)

/-- Replace the first task with the given id by applying `f`
(the `findIndex` + record-merge of `storage.updateTask`). -/
def replaceFirst (ts : List Task) (id : Nat) (f : Task → Task) : List Task :=
  match ts with
  | [] => []
  | t :: rest => if t.id == id then f t :: rest else t :: replaceFirst rest id f

/-- `storage.updateTask(id, updates)`: merge `updates` into the first task with
the given id; returns the updated task, or `none` when the id is absent. -/
def updateTask (s : Store) (id : Nat) (f : Task → Task) : Store × Option Task :=
  match getTask s id with
  | none => (s, none)
  | some t => ({ s with tasks := replaceFirst s.tasks id f }, some (f t))

/-- `storage.getAllTasks()`. -/
def getAllTasks (s : Store) : List Task := s.tasks

/-- `storage.getTasksByStatus(status)`. -/
def getTasksByStatus (s : Store) (st : Status) : List Task :=
  s.tasks.filter (fun t => t.status == st)

/-- `storage.setLastActiveTask(taskId)`. -/
def setLastActiveTask (s : Store) (id : Nat) : Store :=
  { s with lastActiveTaskId := some id }

/-- `storage.createTask(name, url)`: append a fresh record with `id = nextId`,
`status = created`, empty sessions, `totalTime = 0`. -/
def createTask (s : Store) (name url : List Char) (now : Time) : Store × Task :=
  let t : Task :=
    { id := s.nextId, name := name, url := url, status := .created,
      sessions := [], totalTime := 0, createdAt := now,
      lastStarted := none, lastPaused := none, stoppedAt := none }
  ({ s with tasks := s.tasks ++ [t], nextId := s.nextId + 1 }, t)

end Storage

/-- JS `String.prototype.trim` on the char-list embedding of strings. -/
def jsTrim (cs : List Char) : List Char :=
  ((cs.dropWhile Char.isWhitespace).reverse.dropWhile Char.isWhitespace).reverse

namespace TaskManager

/-- `taskManager.createTask(name, url)`: rejects a blank name, then creates via
the store with both arguments trimmed. -/
def createTask (s : Store) (name url : List Char) (now : Time) : Store × Outcome :=
  if jsTrim name = [] then (s, .err "Task name is required")
  else
    let r := Storage.createTask s (jsTrim name) (jsTrim url) now
    (r.1, .ok r.2)

/-- Closing the open session inside `pauseTask`: set `endTime = now` and
`duration = Math.floor((now - startTime) / 1000)`. -/
def pauseClose (cur : Session) (now : Time) : Session :=
  { cur with endTime := some now, duration := (now - cur.startTime).fdiv 1000 }

/-- The record merge `pauseTask` hands to `storage.updateTask`: close the last
session, add its duration to `totalTime`, set `status = paused` and
`lastPaused = now`. `task`/`cur` are the task and open session read before the
update, exactly as the source computes the merge object before the write. -/
def pauseUpdate (task : Task) (now : Time) (cur : Session) : Task → Task :=
  fun t =>
    { t with status := .paused,
             sessions := task.sessions.dropLast ++ [pauseClose cur now],
             totalTime := task.totalTime + (now - cur.startTime).fdiv 1000,
             lastPaused := some now }

/-- `taskManager.pauseTask(taskId)` at instant `now`. Throwing paths return the
store unchanged, because the source throws before any `storage` write. -/
def pauseTask (s : Store) (taskId : Nat) (now : Time) : Store × Outcome :=
  match Storage.getTask s taskId with
  | none => (s, .err s!"Task with ID {taskId} not found")
  | some task =>
    if task.status = .running then
      match task.sessions.getLast? with
      | some cur =>
        if cur.endTime = none then
          let s1 := Storage.setLastActiveTask s taskId
          match Storage.updateTask s1 taskId (pauseUpdate task now cur) with
          | (s2, some u) => (s2, .ok u)
          | (s2, none) => (s2, .err s!"Task with ID {taskId} not found")
        else (s, .err "No active session found")
      | none => (s, .err "No active session found")
    else (s, .err "Task is not currently running")

/-- The `runningTasks.forEach(... pauseTask ...)` loop inside `startTask`: pause
each listed id in order; an inner throw aborts the loop, keeping the pauses
already applied (JS exception semantics). -/
def pauseAll (s : Store) (ids : List Nat) (now : Time) : Store × Option String :=
  match ids with
  | [] => (s, none)
  | i :: rest =>
    match pauseTask s i now with
    | (s', .ok _) => pauseAll s' rest now
    | (s', .err e) => (s', some e)

/-- The fresh open session `startTask` appends:
`{startTime: now, endTime: null, duration: 0}`. -/
def openSession (now : Time) : Session :=
  { startTime := now, endTime := none, duration := 0 }

/-- The record merge `startTask` hands to `storage.updateTask`, with `task` the
record read before the update. -/
def startUpdate (task : Task) (now : Time) : Task → Task :=
  fun t =>
    { t with status := .running,
             sessions := task.sessions ++ [openSession now],
             lastStarted := some now }

/-- The ids `startTask` pauses first: every running task other than the target. -/
def runningIdsFor (s : Store) (taskId : Nat) : List Nat :=
  ((Storage.getTasksByStatus s .running).filter (fun t => !(t.id == taskId))).map
    (fun t => t.id)

/-- `taskManager.startTask(taskId)` at instant `now`: pause every other running
task, then append an open session and mark the target running. -/
def startTask (s : Store) (taskId : Nat) (now : Time) : Store × Outcome :=
  match Storage.getTask s taskId with
  | none => (s, .err s!"Task with ID {taskId} not found")
  | some task =>
    if task.status = .running then (s, .err "Task is already running")
    else
      match pauseAll s (runningIdsFor s taskId) now with
      | (s1, some e) => (s1, .err e)
      | (s1, none) =>
        let s2 := Storage.setLastActiveTask s1 taskId
        match Storage.updateTask s2 taskId (startUpdate task now) with
        | (s3, some u) => (s3, .ok u)
        | (s3, none) => (s3, .err s!"Task with ID {taskId} not found")

/-- The record merge `stopTask` hands to `storage.updateTask`. -/
def stopUpdate (now : Time) : Task → Task :=
  fun t => { t with status := .stopped, stoppedAt := some now }

/-- `taskManager.stopTask(taskId)` at instant `now`: pause first when running,
then set `status = stopped`, `stoppedAt = now`. -/
def stopTask (s : Store) (taskId : Nat) (now : Time) : Store × Outcome :=
  match Storage.getTask s taskId with
  | none => (s, .err s!"Task with ID {taskId} not found")
  | some task =>
    match if task.status = .running then pauseTask s taskId now else (s, .ok task) with
    | (s', .err e) => (s', .err e)
    | (s', .ok _) =>
      match Storage.updateTask s' taskId (stopUpdate now) with
      | (s'', some u) => (s'', .ok u)
      | (s'', none) => (s'', .err s!"Task with ID {taskId} not found")

/-- The record merge `unstopTask` hands to `storage.updateTask`. -/
def unstopUpdate : Task → Task :=
  fun t => { t with status := .paused, stoppedAt := none }

/-- `taskManager.unstopTask(taskId)`: stopped tasks return to `paused` with
`stoppedAt` cleared. -/
def unstopTask (s : Store) (taskId : Nat) : Store × Outcome :=
  match Storage.getTask s taskId with
  | none => (s, .err s!"Task with ID {taskId} not found")
  | some task =>
    if task.status = .stopped then
      match Storage.updateTask s taskId unstopUpdate with
      | (s', some u) => (s', .ok u)
      | (s', none) => (s', .err s!"Task with ID {taskId} not found")
    else (s, .err "Task is not currently stopped")

/-- `taskManager.getCurrentRunningTime(task)`: `0` unless the task is running
with a `lastStarted` stamp; otherwise accumulated time plus the live portion of
the open session. -/
def getCurrentRunningTime (task : Task) (now : Time) : Int :=
  if task.status = .running then
    match task.lastStarted with
    | some t0 => task.totalTime + (now - t0).fdiv 1000
    | none => 0
  else 0

/-- The JS truthiness-guarded comparison `stamp && stamp >= todayStart` on an
optional timestamp. -/
def optStampSince (todayStart : Time) : Option Time → Bool
  | some x => decide (todayStart ≤ x)
  | none => false

/-- The `session.startTime >= todayStart || (session.endTime && session.endTime
>= todayStart)` test inside `getTodaysTasks`. -/
def sessionToday (todayStart : Time) (sess : Session) : Bool :=
  decide (todayStart ≤ sess.startTime) || optStampSince todayStart sess.endTime

/-- The per-task filter body of `taskManager.getTodaysTasks`. -/
def taskActiveToday (todayStart : Time) (t : Task) : Bool :=
  if optStampSince todayStart t.lastStarted then true
  else if optStampSince todayStart t.lastPaused then true
  else if t.sessions.length > 0 then t.sessions.any (sessionToday todayStart)
  else false

/-- `taskManager.getTodaysTasks()`, with the local-midnight instant passed in
as `todayStart`. -/
def getTodaysTasks (s : Store) (todayStart : Time) : List Task :=
  s.tasks.filter (taskActiveToday todayStart)

end TaskManager

/-- The seconds value the visual renderer formats for one task row
(`visualMode.render`): the live running total for a running task, the stored
`totalTime` for any other status. -/
def timeDisplaySeconds (task : Task) (now : Time) : Int :=
  if task.status = .running then TaskManager.getCurrentRunningTime task now
  else task.totalTime

/-- JS `a.startsWith-like` check used to build substring containment:
`startsWith hay needle`. -/
def startsWith : List Char → List Char → Bool
  | _, [] => true
  | [], _ :: _ => false
  | a :: as, b :: bs => a == b && startsWith as bs

/-- JS `hay.includes(needle)`: substring containment on char lists. -/
def containsSub (needle : List Char) : List Char → Bool
  | [] => needle.isEmpty
  | c :: rest => startsWith (c :: rest) needle || containsSub needle rest

/-- JS `String.prototype.toLowerCase` on the char-list embedding. -/
def toLowerStr (cs : List Char) : List Char := cs.map Char.toLower

/-- The regex test `/^\d+$/` of the interactive handler. -/
def isAllDigits (cs : List Char) : Bool := !cs.isEmpty && cs.all Char.isDigit

/-- JS `parseInt` on an all-digit string. -/
def digitsToNat (cs : List Char) : Nat :=
  cs.foldl (fun a c => a * 10 + (c.toNat - '0'.toNat)) 0

namespace InteractiveMode

/-- The line-mode `findTask(input)`: exclude stopped tasks, then match by
numeric id when the input is all digits, otherwise by case-insensitive
substring (or exact) match on the name, first match in store order. -/
def findTask (tasks : List Task) (input : List Char) : Option Task :=
  if isAllDigits input then
    (tasks.filter (fun t => !(t.status == .stopped))).find?
      (fun t => t.id == digitsToNat input)
  else
    (tasks.filter (fun t => !(t.status == .stopped))).find?
      (fun t => containsSub (toLowerStr input) (toLowerStr t.name) ||
        toLowerStr t.name == toLowerStr input)

/-- The line-mode `startTask(input)` handler: resolve; on failure create only
when the input is not purely numeric, then start. Printed messages are embedded
as `err` outcomes; the store component is the state after the call. -/
def startTask (s : Store) (input : List Char) (now : Time) : Store × Outcome :=
  if input = [] then (s, .err "Please provide a task ID or name")
  else
    match findTask s.tasks input with
    | some t => TaskManager.startTask s t.id now
    | none =>
      if isAllDigits input then (s, .err "Task with ID not found")
      else
        match TaskManager.createTask s input [] now with
        | (s', .ok t) => TaskManager.startTask s' t.id now
        | (s', .err e) => (s', .err e)

end InteractiveMode

namespace VisualMode

/-- `visualMode.refreshTasks`: the list the visual mode displays — today's
tasks with stopped ones filtered out. -/
def refreshTasks (s : Store) (todayStart : Time) : List Task :=
  (TaskManager.getTodaysTasks s todayStart).filter (fun t => !(t.status == .stopped))

/-- `visualMode.createAndStartTask(taskName)`. -/
def createAndStartTask (s : Store) (taskName : List Char) (now : Time) : Store × Outcome :=
  match TaskManager.createTask s taskName [] now with
  | (s', .ok t) => TaskManager.startTask s' t.id now
  | (s', .err e) => (s', .err e)

/-- `visualMode.startTaskByName(taskName)`: resolve only by case-insensitive
name substring over the displayed task list `visTasks`; create and start a new
task whenever unresolved — with no numeric-input guard. -/
def startTaskByName (s : Store) (visTasks : List Task) (input : List Char) (now : Time) :
    Store × Outcome :=
  match visTasks.find? (fun t => containsSub (toLowerStr input) (toLowerStr t.name)) with
  | some t => TaskManager.startTask s t.id now
  | none => createAndStartTask s input now

end VisualMode

/-- A task whose last session exists and is open. The lifecycle invariant keeps
this true for every running task. -/
def lastOpen (t : Task) : Bool :=
  match t.sessions.getLast? with
  | some cur => cur.endTime.isNone
  | none => false

/-- Store well-formedness used as a hypothesis: task ids are pairwise distinct
(the store assigns them monotonically), and every running task has an open last
session. -/
def StoreWF (s : Store) : Prop :=
  (s.tasks.map Task.id).Nodup ∧ ∀ t ∈ s.tasks, t.status = .running → lastOpen t = true

instance : DecidablePred StoreWF := fun s => by
  unfold StoreWF
  infer_instance

/-- Number of running tasks in a store. -/
def runningCount (s : Store) : Nat :=
  (s.tasks.filter (fun t => t.status == .running)).length

/-- Whether a lifecycle call returned normally (no thrown error). -/
def isOk : Outcome → Bool
  | .ok _ => true
  | .err _ => false

/-- The accounting invariant of one task: `totalTime` equals the sum of the
`duration` fields of its closed sessions (sessions with an `endTime`). -/
def totalInv (t : Task) : Prop :=
  t.totalTime = ((t.sessions.filter (fun sess => sess.endTime.isSome)).map Session.duration).sum

instance : DecidablePred totalInv := fun t => by
  unfold totalInv
  infer_instance

/-- One lifecycle operation of the engine, for stating properties quantified
over every operation. -/
inductive Op where
  | create (name url : List Char)
  | start (id : Nat)
  | pause (id : Nat)
  | stop (id : Nat)
  | unstop (id : Nat)
deriving DecidableEq, Repr

/-- Dispatch one lifecycle operation at instant `now`. -/
def applyOp (s : Store) (op : Op) (now : Time) : Store × Outcome :=
  match op with
  | .create name url => TaskManager.createTask s name url now
  | .start id => TaskManager.startTask s id now
  | .pause id => TaskManager.pauseTask s id now
  | .stop id => TaskManager.stopTask s id now
  | .unstop id => TaskManager.unstopTask s id

/-- Activity of a task within the local calendar day `[dayStart, dayEnd)`, as
the specification words it: a session starting or ending within the day, or
`lastStarted`/`lastPaused` within it. -/
def ActivityToday (dayStart dayEnd : Time) (t : Task) : Prop :=
  (∃ x, t.lastStarted = some x ∧ dayStart ≤ x ∧ x < dayEnd) ∨
  (∃ x, t.lastPaused = some x ∧ dayStart ≤ x ∧ x < dayEnd) ∨
  (∃ sess ∈ t.sessions, (dayStart ≤ sess.startTime ∧ sess.startTime < dayEnd) ∨
    (∃ e, sess.endTime = some e ∧ dayStart ≤ e ∧ e < dayEnd))

/-- Every timestamp recorded on a task lies below `bound` (true of real stores
with `bound` = end of the current day, since timestamps are written in the
past). -/
def stampsBefore (bound : Time) (t : Task) : Bool :=
  (match t.lastStarted with | some x => decide (x < bound) | none => true) &&
  (match t.lastPaused with | some x => decide (x < bound) | none => true) &&
  t.sessions.all (fun sess => decide (sess.startTime < bound) &&
    (match sess.endTime with | some e => decide (e < bound) | none => true))

/-- The resolution predicate of claim C8: a task is a candidate for user input
`input` when it is not stopped and, for all-digit input, its id equals the
parsed number, otherwise its lowercased name contains (or equals) the
lowercased input. -/
def goodMatch (input : List Char) (t : Task) : Prop :=
  t.status ≠ .stopped ∧
    (if isAllDigits input = true then t.id = digitsToNat input
     else containsSub (toLowerStr input) (toLowerStr t.name) = true ∨
       toLowerStr t.name = toLowerStr input)

/-! ### Concrete fixtures used by witnesses and counterexamples -/

/-- A running task with one open session started at instant 0. -/
def exTaskA : Task :=
  ⟨1, ['A'], [], .running, [⟨0, none, 0⟩], 0, 0, some 0, none, none⟩

/-- A freshly created task. -/
def exTaskB : Task :=
  ⟨2, ['B'], [], .created, [], 0, 0, none, none, none⟩

/-- A store with one running and one created task. -/
def exStore : Store := ⟨[exTaskA, exTaskB], 3, none⟩

/-- A corrupt record: running but with its only session already closed. -/
def exTaskCorrupt : Task :=
  ⟨7, ['C'], [], .running, [⟨0, some 1000, 1⟩], 1, 0, some 0, some 1000, none⟩

/-- A store containing only the corrupt running task. -/
def exStoreCorrupt : Store := ⟨[exTaskCorrupt], 8, none⟩

/-- A stopped task with activity (lastPaused) inside the example day. -/
def exTaskStopped : Task :=
  ⟨4, ['S'], [], .stopped, [⟨100, some 2000, 1⟩], 1, 0, some 100, some 2000, some 2500⟩

/-- A store for the today-view claims: one running, one created (no activity),
one stopped task. -/
def exStoreToday : Store :=
  ⟨[exTaskA, exTaskB, exTaskStopped], 5, none⟩

/-! ### Helper lemmas about the storage layer -/

theorem getTask_setLastActiveTask (s : Store) (i j : Nat) :
    Storage.getTask (Storage.setLastActiveTask s i) j = Storage.getTask s j := rfl

theorem replaceFirst_cons_pos {hd : Task} {tl : List Task} {id : Nat} {f : Task → Task}
    (h : hd.id = id) :
    Storage.replaceFirst (hd :: tl) id f = f hd :: tl := by
  simp [Storage.replaceFirst, h]

theorem replaceFirst_cons_neg {hd : Task} {tl : List Task} {id : Nat} {f : Task → Task}
    (h : ¬hd.id = id) :
    Storage.replaceFirst (hd :: tl) id f = hd :: Storage.replaceFirst tl id f := by
  simp [Storage.replaceFirst, h]

theorem replaceFirst_decomp {ts : List Task} {id : Nat} {t : Task}
    (h : ts.find? (fun u => u.id == id) = some t) (f : Task → Task) :
    ∃ pre post, ts = pre ++ t :: post ∧ (∀ u ∈ pre, u.id ≠ id) ∧
      Storage.replaceFirst ts id f = pre ++ f t :: post := by
  induction ts with
  | nil => simp at h
  | cons hd tl ih =>
    by_cases hid : hd.id = id
    · rw [List.find?_cons_of_pos _ (by simpa using hid)] at h
      cases h
      exact ⟨[], tl, by simp, by simp, by simp [replaceFirst_cons_pos hid]⟩
    · rw [List.find?_cons_of_neg _ (by simpa using hid)] at h
      obtain ⟨pre, post, heq, hpre, hrep⟩ := ih h
      refine ⟨hd :: pre, post, by simp [heq], ?_, ?_⟩
      · intro u hu
        rcases List.mem_cons.mp hu with rfl | hu
        · exact hid
        · exact hpre u hu
      · rw [replaceFirst_cons_neg hid, hrep]
        simp

theorem mem_replaceFirst {v : Task} {ts : List Task} {id : Nat} {f : Task → Task}
    (h : v ∈ Storage.replaceFirst ts id f) : v ∈ ts ∨ ∃ t ∈ ts, v = f t := by
  induction ts with
  | nil => simp [Storage.replaceFirst] at h
  | cons hd tl ih =>
    by_cases hid : hd.id = id
    · rw [replaceFirst_cons_pos hid] at h
      rcases List.mem_cons.mp h with rfl | hv
      · exact Or.inr ⟨hd, by simp, rfl⟩
      · exact Or.inl (List.mem_cons_of_mem _ hv)
    · rw [replaceFirst_cons_neg hid] at h
      rcases List.mem_cons.mp h with rfl | hv
      · exact Or.inl (by simp)
      · rcases ih hv with hv' | ⟨t, ht, rfl⟩
        · exact Or.inl (List.mem_cons_of_mem _ hv')
        · exact Or.inr ⟨t, List.mem_cons_of_mem _ ht, rfl⟩

theorem map_replaceFirst {ts : List Task} {id : Nat} {f : Task → Task} {β : Type}
    (g : Task → β) (hf : ∀ t, g (f t) = g t) :
    (Storage.replaceFirst ts id f).map g = ts.map g := by
  induction ts with
  | nil => rfl
  | cons hd tl ih =>
    by_cases hid : hd.id = id
    · rw [replaceFirst_cons_pos hid]
      simp [hf]
    · rw [replaceFirst_cons_neg hid]
      simp [ih]

theorem find?_replaceFirst_ne {ts : List Task} {id j : Nat} {f : Task → Task}
    (hf : ∀ t, (f t).id = t.id) (hne : j ≠ id) :
    (Storage.replaceFirst ts id f).find? (fun u => u.id == j) =
      ts.find? (fun u => u.id == j) := by
  induction ts with
  | nil => rfl
  | cons hd tl ih =>
    by_cases hid : hd.id = id
    · have h1 : ¬((f hd).id == j) = true := by
        simp [hf, hid]
        exact fun h => hne h.symm
      have h2 : ¬(hd.id == j) = true := by
        simp [hid]
        exact fun h => hne h.symm
      rw [replaceFirst_cons_pos hid,
        @List.find?_cons_of_neg _ (fun u => u.id == j) (f hd) tl h1,
        @List.find?_cons_of_neg _ (fun u => u.id == j) hd tl h2]
    · rw [replaceFirst_cons_neg hid]
      by_cases hj : hd.id = j
      · rw [List.find?_cons_of_pos _ (by simpa using hj),
          List.find?_cons_of_pos _ (by simpa using hj)]
      · rw [List.find?_cons_of_neg _ (by simpa using hj),
          List.find?_cons_of_neg _ (by simpa using hj)]
        exact ih

theorem find?_replaceFirst_self {ts : List Task} {id : Nat} {t : Task} {f : Task → Task}
    (h : ts.find? (fun u => u.id == id) = some t) (hf : ∀ u, (f u).id = u.id) :
    (Storage.replaceFirst ts id f).find? (fun u => u.id == id) = some (f t) := by
  obtain ⟨pre, post, _, hpre, hrep⟩ := replaceFirst_decomp h f
  have hid : t.id = id := by simpa using List.find?_some h
  rw [hrep, List.find?_append]
  have hnone : pre.find? (fun u => u.id == id) = none :=
    List.find?_eq_none.mpr (fun u hu => by simpa using hpre u hu)
  rw [hnone]
  simp [List.find?_cons_of_pos, hf, hid]

theorem find?_append_of_none {α : Type} {p : α → Bool} {l1 l2 : List α}
    (h : ∀ x ∈ l1, p x = false) :
    (l1 ++ l2).find? p = l2.find? p := by
  rw [List.find?_append, List.find?_eq_none.mpr (fun x hx => by simp [h x hx])]
  rfl

theorem find?_id_of_nodup {ts : List Task} {u : Task}
    (hnd : (ts.map Task.id).Nodup) (hu : u ∈ ts) :
    ts.find? (fun t => t.id == u.id) = some u := by
  induction ts with
  | nil => simp at hu
  | cons hd tl ih =>
    rw [List.map_cons, List.nodup_cons] at hnd
    rcases List.mem_cons.mp hu with rfl | hu'
    · exact List.find?_cons_of_pos _ (by simp)
    · have hne : ¬(hd.id == u.id) = true := by
        simp only [beq_iff_eq]
        intro hcontra
        exact hnd.1 (hcontra ▸ List.mem_map_of_mem Task.id hu')
      rw [@List.find?_cons_of_neg _ (fun t => t.id == u.id) hd tl hne]
      exact ih (by simpa using hnd.2) hu'

theorem lastOpen_iff {t : Task} :
    lastOpen t = true ↔ ∃ cur, t.sessions.getLast? = some cur ∧ cur.endTime = none := by
  unfold lastOpen
  cases h : t.sessions.getLast? with
  | none => simp
  | some cur => simp [Option.isNone_iff_eq_none]

theorem getLast?_decomp {α : Type} {l : List α} {x : α} (h : l.getLast? = some x) :
    l = l.dropLast ++ [x] := by
  have hne : l ≠ [] := by rintro rfl; simp at h
  have := List.getLast?_eq_getLast l hne
  rw [this] at h
  have hx : l.getLast hne = x := by injection h
  conv_lhs => rw [← List.dropLast_append_getLast hne]
  rw [hx]

/-! ### Effect lemmas for the lifecycle operations -/

theorem pauseUpdate_id (task : Task) (now : Time) (cur : Session) (t : Task) :
    (TaskManager.pauseUpdate task now cur t).id = t.id := rfl

theorem startUpdate_id (task : Task) (now : Time) (t : Task) :
    (TaskManager.startUpdate task now t).id = t.id := rfl

theorem stopUpdate_id (now : Time) (t : Task) : (TaskManager.stopUpdate now t).id = t.id := rfl

theorem unstopUpdate_id (t : Task) : (TaskManager.unstopUpdate t).id = t.id := rfl

theorem pauseTask_ok {s : Store} {taskId : Nat} {task : Task} {cur : Session} (now : Time)
    (hget : Storage.getTask s taskId = some task)
    (hrun : task.status = .running)
    (hlast : task.sessions.getLast? = some cur)
    (hopen : cur.endTime = none) :
    TaskManager.pauseTask s taskId now =
      (⟨Storage.replaceFirst s.tasks taskId (TaskManager.pauseUpdate task now cur),
        s.nextId, some taskId⟩,
       .ok (TaskManager.pauseUpdate task now cur task)) := by
  have hup : Storage.updateTask (Storage.setLastActiveTask s taskId) taskId
      (TaskManager.pauseUpdate task now cur) =
      (⟨Storage.replaceFirst s.tasks taskId (TaskManager.pauseUpdate task now cur),
        s.nextId, some taskId⟩,
       some (TaskManager.pauseUpdate task now cur task)) := by
    unfold Storage.updateTask
    rw [getTask_setLastActiveTask, hget]
    rfl
  simp [TaskManager.pauseTask, hget, hrun, hlast, hopen, hup]

theorem pauseTask_cases (s : Store) (taskId : Nat) (now : Time) :
    (∃ e, TaskManager.pauseTask s taskId now = (s, .err e)) ∨
    (∃ task cur, Storage.getTask s taskId = some task ∧ task.status = .running ∧
      task.sessions.getLast? = some cur ∧ cur.endTime = none ∧
      TaskManager.pauseTask s taskId now =
        (⟨Storage.replaceFirst s.tasks taskId (TaskManager.pauseUpdate task now cur),
          s.nextId, some taskId⟩,
         .ok (TaskManager.pauseUpdate task now cur task))) := by
  cases hg : Storage.getTask s taskId with
  | none =>
    refine Or.inl ⟨s!"Task with ID {taskId} not found", ?_⟩
    simp [TaskManager.pauseTask, hg]
  | some task =>
    by_cases hr : task.status = .running
    · cases hl : task.sessions.getLast? with
      | none =>
        refine Or.inl ⟨"No active session found", ?_⟩
        simp [TaskManager.pauseTask, hg, hr, hl]
      | some cur =>
        by_cases ho : cur.endTime = none
        · exact Or.inr ⟨task, cur, rfl, hr, hl, ho, pauseTask_ok now hg hr hl ho⟩
        · refine Or.inl ⟨"No active session found", ?_⟩
          simp [TaskManager.pauseTask, hg, hr, hl, ho]
    · refine Or.inl ⟨"Task is not currently running", ?_⟩
      simp [TaskManager.pauseTask, hg, hr]

theorem getTask_pauseTask_ne {s : Store} {pid : Nat} {now : Time} {j : Nat} (hne : j ≠ pid) :
    Storage.getTask (TaskManager.pauseTask s pid now).1 j = Storage.getTask s j := by
  rcases pauseTask_cases s pid now with ⟨e, he⟩ | ⟨task, cur, _, _, _, _, he⟩
  · rw [he]
  · rw [he]
    exact find?_replaceFirst_ne (pauseUpdate_id task now cur) hne

theorem nextId_pauseTask (s : Store) (pid : Nat) (now : Time) :
    (TaskManager.pauseTask s pid now).1.nextId = s.nextId := by
  rcases pauseTask_cases s pid now with ⟨e, he⟩ | ⟨task, cur, _, _, _, _, he⟩ <;> rw [he]

theorem pauseTask_ok_running {s : Store} {pid : Nat} {now : Time} {s' : Store} {u : Task}
    (hnodup : (s.tasks.map Task.id).Nodup)
    (h : TaskManager.pauseTask s pid now = (s', .ok u)) :
    s'.tasks.map Task.id = s.tasks.map Task.id ∧
    ∀ v ∈ s'.tasks, v.status = .running → v ∈ s.tasks ∧ v.status = .running ∧ v.id ≠ pid := by
  rcases pauseTask_cases s pid now with ⟨e, he⟩ | ⟨task, cur, hget, hr, hl, ho, he⟩
  · rw [he] at h
    simp at h
  · rw [he] at h
    obtain ⟨hs', -⟩ : (⟨Storage.replaceFirst s.tasks pid (TaskManager.pauseUpdate task now cur),
        s.nextId, some pid⟩ : Store) = s' ∧ Outcome.ok (TaskManager.pauseUpdate task now cur task) = .ok u := by
      constructor
      · exact congrArg Prod.fst h
      · exact congrArg Prod.snd h
    subst hs'
    constructor
    · exact map_replaceFirst Task.id (pauseUpdate_id task now cur)
    · intro v hv hrun
      have hfind : s.tasks.find? (fun t => t.id == pid) = some task := hget
      obtain ⟨pre, post, hsplit, hpre, hrep⟩ :=
        replaceFirst_decomp hfind (TaskManager.pauseUpdate task now cur)
      have htid : task.id = pid := by simpa using List.find?_some hfind
      rw [hrep] at hv
      rcases List.mem_append.mp hv with hvpre | hvcons
      · refine ⟨by rw [hsplit]; exact List.mem_append_left _ hvpre, hrun, hpre v hvpre⟩
      · rcases List.mem_cons.mp hvcons with rfl | hvpost
        · simp [TaskManager.pauseUpdate] at hrun
        · refine ⟨by rw [hsplit]; exact List.mem_append_right _ (List.mem_cons_of_mem _ hvpost),
            hrun, ?_⟩
          rw [hsplit, List.map_append, List.map_cons] at hnodup
          have hnd2 := (List.nodup_append.mp hnodup).2.1
          rw [List.nodup_cons] at hnd2
          intro hcontra
          apply hnd2.1
          have hmem : v.id ∈ List.map Task.id post := List.mem_map_of_mem Task.id hvpost
          rwa [hcontra, ← htid] at hmem

theorem pauseAll_ok_running {ids : List Nat} {s : Store} {now : Time} {s1 : Store}
    (hnodup : (s.tasks.map Task.id).Nodup)
    (h : TaskManager.pauseAll s ids now = (s1, none)) :
    s1.tasks.map Task.id = s.tasks.map Task.id ∧
    ∀ v ∈ s1.tasks, v.status = .running → v ∈ s.tasks ∧ v.status = .running ∧ v.id ∉ ids := by
  induction ids generalizing s with
  | nil =>
    obtain rfl : s = s1 := congrArg Prod.fst h
    exact ⟨rfl, fun v hv hrun => ⟨hv, hrun, by simp⟩⟩
  | cons i rest ih =>
    unfold TaskManager.pauseAll at h
    cases hp : TaskManager.pauseTask s i now with
    | mk sp o =>
      rw [hp] at h
      cases o with
      | err e => simp at h
      | ok u =>
        obtain ⟨hids, hrun⟩ := pauseTask_ok_running hnodup hp
        obtain ⟨hids2, hrun2⟩ := ih (hids ▸ hnodup) h
        refine ⟨hids2.trans hids, fun v hv hr => ?_⟩
        obtain ⟨hv1, hr1, hne1⟩ := hrun2 v hv hr
        obtain ⟨hv2, hr2, hne2⟩ := hrun v hv1 hr1
        exact ⟨hv2, hr2, by simp [hne1, hne2]⟩

theorem pauseAll_getTask_ne {ids : List Nat} {now : Time} {j : Nat} :
    ∀ (s : Store), j ∉ ids →
      Storage.getTask (TaskManager.pauseAll s ids now).1 j = Storage.getTask s j := by
  induction ids with
  | nil => intro s _; rfl
  | cons i rest ih =>
    intro s hj
    have hji : j ≠ i := by simp at hj; exact hj.1
    have hjr : j ∉ rest := by simp at hj; exact hj.2
    unfold TaskManager.pauseAll
    cases hp : TaskManager.pauseTask s i now with
    | mk sp o =>
      cases o with
      | err e =>
        have : sp = (TaskManager.pauseTask s i now).1 := by rw [hp]
        simpa [this] using getTask_pauseTask_ne hji
      | ok u =>
        have hsp : Storage.getTask sp j = Storage.getTask s j := by
          have : sp = (TaskManager.pauseTask s i now).1 := by rw [hp]
          simpa [this] using getTask_pauseTask_ne hji
        simpa [hsp] using ih sp hjr

theorem pauseAll_nextId (ids : List Nat) (now : Time) :
    ∀ (s : Store), (TaskManager.pauseAll s ids now).1.nextId = s.nextId := by
  induction ids with
  | nil => intro s; rfl
  | cons i rest ih =>
    intro s
    unfold TaskManager.pauseAll
    cases hp : TaskManager.pauseTask s i now with
    | mk sp o =>
      have hsp : sp.nextId = s.nextId := by
        have : sp = (TaskManager.pauseTask s i now).1 := by rw [hp]
        rw [this]
        exact nextId_pauseTask s i now
      cases o with
      | err e => simpa using hsp
      | ok u => simpa [hsp] using ih sp

theorem not_mem_runningIdsFor (s : Store) (taskId : Nat) :
    taskId ∉ TaskManager.runningIdsFor s taskId := by
  unfold TaskManager.runningIdsFor
  intro h
  obtain ⟨t, ht, hid⟩ := List.mem_map.mp h
  have := List.of_mem_filter ht
  simp [hid] at this

theorem mem_runningIdsFor {s : Store} {taskId : Nat} {v : Task}
    (hv : v ∈ s.tasks) (hrun : v.status = .running) (hne : v.id ≠ taskId) :
    v.id ∈ TaskManager.runningIdsFor s taskId := by
  unfold TaskManager.runningIdsFor Storage.getTasksByStatus
  refine List.mem_map.mpr ⟨v, ?_, rfl⟩
  refine List.mem_filter.mpr ⟨List.mem_filter.mpr ⟨hv, by simp [hrun]⟩, by simp [hne]⟩

theorem runningIdsFor_nodup {s : Store} (hnodup : (s.tasks.map Task.id).Nodup) (taskId : Nat) :
    (TaskManager.runningIdsFor s taskId).Nodup := by
  unfold TaskManager.runningIdsFor Storage.getTasksByStatus
  have h1 : ((s.tasks.filter (fun t => t.status == .running)).filter
      (fun t => !(t.id == taskId))).Sublist s.tasks :=
    ((s.tasks.filter (fun t => t.status == .running)).filter_sublist.trans
      s.tasks.filter_sublist)
  exact (h1.map Task.id).nodup hnodup

theorem mem_runningIdsFor_inv {s : Store} {taskId i : Nat}
    (h : i ∈ TaskManager.runningIdsFor s taskId) :
    ∃ t ∈ s.tasks, t.id = i ∧ t.status = .running ∧ i ≠ taskId := by
  unfold TaskManager.runningIdsFor Storage.getTasksByStatus at h
  obtain ⟨t, ht, hid⟩ := List.mem_map.mp h
  have ht1 := List.of_mem_filter ht
  have ht2 := List.mem_of_mem_filter ht
  have ht3 := List.of_mem_filter ht2
  have ht4 := List.mem_of_mem_filter ht2
  refine ⟨t, ht4, hid, by simpa using ht3, ?_⟩
  simp at ht1
  rw [← hid]
  exact ht1

theorem pauseAll_ok_of_wf {ids : List Nat} (now : Time) :
    ∀ {s : Store}, ids.Nodup →
    (∀ i ∈ ids, ∃ t, Storage.getTask s i = some t ∧ t.status = .running ∧
      lastOpen t = true) →
    ∃ s1, TaskManager.pauseAll s ids now = (s1, none) ∧
      (∀ j, j ∉ ids → Storage.getTask s1 j = Storage.getTask s j) ∧
      s1.tasks.map Task.id = s.tasks.map Task.id := by
  induction ids with
  | nil =>
    intro s _ _
    exact ⟨s, rfl, fun j _ => rfl, rfl⟩
  | cons i rest ih =>
    intro s hids h
    rw [List.nodup_cons] at hids
    obtain ⟨t, hget, hrun, hopen⟩ := h i (by simp)
    obtain ⟨cur, hl, ho⟩ := lastOpen_iff.mp hopen
    have hpok := pauseTask_ok now hget hrun hl ho
    have hspget : ∀ j, j ≠ i →
        Storage.getTask (TaskManager.pauseTask s i now).1 j = Storage.getTask s j :=
      fun j hj => getTask_pauseTask_ne hj
    obtain ⟨s1, hp, hpres, hidsmap⟩ := @ih (TaskManager.pauseTask s i now).1 hids.2
      (fun i' hi' => by
        have hne : i' ≠ i := fun hcontra => hids.1 (hcontra ▸ hi')
        rw [hspget i' hne]
        exact h i' (List.mem_cons_of_mem _ hi'))
    refine ⟨s1, ?_, ?_, ?_⟩
    · unfold TaskManager.pauseAll
      rw [hpok]
      rw [hpok] at hp
      exact hp
    · intro j hj
      rw [List.mem_cons] at hj
      push_neg at hj
      rw [hpres j hj.2]
      exact hspget j hj.1
    · rw [hidsmap, hpok]
      exact map_replaceFirst Task.id (pauseUpdate_id t now cur)

theorem startTask_ok_inv {s : Store} {taskId : Nat} {now : Time} {s' : Store} {u : Task}
    (h : TaskManager.startTask s taskId now = (s', .ok u)) :
    ∃ task s1 tf,
      Storage.getTask s taskId = some task ∧ ¬task.status = .running ∧
      TaskManager.pauseAll s (TaskManager.runningIdsFor s taskId) now = (s1, none) ∧
      Storage.getTask s1 taskId = some tf ∧
      s' = ⟨Storage.replaceFirst s1.tasks taskId (TaskManager.startUpdate task now),
        s1.nextId, some taskId⟩ ∧
      u = TaskManager.startUpdate task now tf := by
  unfold TaskManager.startTask at h
  split at h
  · simp at h
  · rename_i task hg
    split at h
    · simp at h
    · rename_i hr
      split at h
      · simp at h
      · rename_i s1 hp
        cases hg2 : Storage.getTask s1 taskId with
        | none =>
          have hupn : Storage.updateTask (Storage.setLastActiveTask s1 taskId) taskId
              (TaskManager.startUpdate task now) =
              (Storage.setLastActiveTask s1 taskId, none) := by
            unfold Storage.updateTask
            rw [getTask_setLastActiveTask, hg2]
          simp only [hupn] at h
          simp at h
        | some tf =>
          have hup : Storage.updateTask (Storage.setLastActiveTask s1 taskId) taskId
              (TaskManager.startUpdate task now) =
              (⟨Storage.replaceFirst s1.tasks taskId (TaskManager.startUpdate task now),
                s1.nextId, some taskId⟩, some (TaskManager.startUpdate task now tf)) := by
            unfold Storage.updateTask
            rw [getTask_setLastActiveTask, hg2]
            rfl
          simp only [hup] at h
          rw [Prod.mk.injEq] at h
          refine ⟨task, s1, tf, hg, hr, hp, hg2, h.1.symm, ?_⟩
          have := h.2
          injection this with hu
          exact hu.symm

theorem startTask_ok_full {s : Store} {taskId : Nat} (now : Time) {task : Task}
    (hwf : StoreWF s)
    (hget : Storage.getTask s taskId = some task)
    (hr : ¬task.status = .running) :
    ∃ s', TaskManager.startTask s taskId now =
        (s', .ok (TaskManager.startUpdate task now task)) ∧
      Storage.getTask s' taskId = some (TaskManager.startUpdate task now task) ∧
      s'.tasks.map Task.id = s.tasks.map Task.id ∧ s'.nextId = s.nextId := by
  obtain ⟨hnodup, hrwf⟩ := hwf
  have hidsnd := runningIdsFor_nodup hnodup taskId
  have hprem : ∀ i ∈ TaskManager.runningIdsFor s taskId,
      ∃ t, Storage.getTask s i = some t ∧ t.status = .running ∧ lastOpen t = true := by
    intro i hi
    obtain ⟨t, ht, hid, hrun, _⟩ := mem_runningIdsFor_inv hi
    refine ⟨t, ?_, hrun, hrwf t ht hrun⟩
    have hfind := find?_id_of_nodup hnodup ht
    rw [hid] at hfind
    exact hfind
  obtain ⟨s1, hp, hpres, hids⟩ := pauseAll_ok_of_wf now hidsnd hprem
  have hg1 : Storage.getTask s1 taskId = some task := by
    rw [hpres taskId (not_mem_runningIdsFor s taskId)]
    exact hget
  have hup : Storage.updateTask (Storage.setLastActiveTask s1 taskId) taskId
      (TaskManager.startUpdate task now) =
      (⟨Storage.replaceFirst s1.tasks taskId (TaskManager.startUpdate task now),
        s1.nextId, some taskId⟩, some (TaskManager.startUpdate task now task)) := by
    unfold Storage.updateTask
    rw [getTask_setLastActiveTask, hg1]
    rfl
  have hs1next : s1.nextId = s.nextId := by
    have := pauseAll_nextId (TaskManager.runningIdsFor s taskId) now s
    rw [hp] at this
    exact this
  refine ⟨⟨Storage.replaceFirst s1.tasks taskId (TaskManager.startUpdate task now),
    s1.nextId, some taskId⟩, ?_, ?_, ?_, hs1next⟩
  · simp [TaskManager.startTask, hget, hr, hp, hup]
  · exact find?_replaceFirst_self hg1 (startUpdate_id task now)
  · exact (map_replaceFirst Task.id (startUpdate_id task now)).trans hids

theorem length_le_one_of_nodup_const {l : List Nat} (hnd : l.Nodup) (k : Nat)
    (hall : ∀ x ∈ l, x = k) : l.length ≤ 1 := by
  match l, hnd, hall with
  | [], _, _ => simp
  | [x], _, _ => simp
  | x :: y :: rest, hnd', hall' =>
    rw [List.nodup_cons] at hnd'
    have hx := hall' x (by simp)
    have hy := hall' y (by simp)
    subst hx
    exact absurd (by rw [hy]; exact List.mem_cons_self _ _) hnd'.1

theorem runningCount_le_one {s' : Store} (hnd : (s'.tasks.map Task.id).Nodup) (k : Nat)
    (hall : ∀ v ∈ s'.tasks, v.status = .running → v.id = k) :
    runningCount s' ≤ 1 := by
  unfold runningCount
  have hsub : (s'.tasks.filter (fun t => t.status == .running)).Sublist s'.tasks :=
    List.filter_sublist _
  have hnd2 : ((s'.tasks.filter (fun t => t.status == .running)).map Task.id).Nodup :=
    (hsub.map Task.id).nodup hnd
  have hall2 : ∀ x ∈ (s'.tasks.filter (fun t => t.status == .running)).map Task.id, x = k := by
    intro x hx
    obtain ⟨v, hv, rfl⟩ := List.mem_map.mp hx
    exact hall v (List.mem_of_mem_filter hv) (by simpa using List.of_mem_filter hv)
  have := length_le_one_of_nodup_const hnd2 k hall2
  simpa using this

/-! ### The totalTime accounting invariant -/

theorem pauseUpdate_totalInv {task : Task} {cur : Session} (now : Time) (t : Task)
    (hinv : totalInv task)
    (hl : task.sessions.getLast? = some cur)
    (ho : cur.endTime = none) :
    totalInv (TaskManager.pauseUpdate task now cur t) := by
  have hdec : task.sessions = task.sessions.dropLast ++ [cur] := getLast?_decomp hl
  have h1 : task.sessions.filter (fun sess => sess.endTime.isSome) =
      task.sessions.dropLast.filter (fun sess => sess.endTime.isSome) := by
    conv_lhs => rw [hdec]
    simp [List.filter_append, ho]
  unfold totalInv at *
  show task.totalTime + (now - cur.startTime).fdiv 1000 =
    (((task.sessions.dropLast ++ [TaskManager.pauseClose cur now]).filter
      (fun sess => sess.endTime.isSome)).map Session.duration).sum
  rw [hinv, h1, List.filter_append]
  simp [TaskManager.pauseClose]

theorem startUpdate_totalInv {task : Task} (now : Time)
    (hinv : totalInv task) :
    totalInv (TaskManager.startUpdate task now task) := by
  unfold totalInv at *
  show task.totalTime =
    (((task.sessions ++ [TaskManager.openSession now]).filter
      (fun sess => sess.endTime.isSome)).map Session.duration).sum
  rw [hinv, List.filter_append]
  simp [TaskManager.openSession]

theorem stopUpdate_totalInv {t : Task} (now : Time) (hinv : totalInv t) :
    totalInv (TaskManager.stopUpdate now t) := hinv

theorem unstopUpdate_totalInv {t : Task} (hinv : totalInv t) :
    totalInv (TaskManager.unstopUpdate t) := hinv

theorem pauseTask_totalInv {s : Store} (pid : Nat) (now : Time)
    (hinv : ∀ t ∈ s.tasks, totalInv t) :
    ∀ v ∈ (TaskManager.pauseTask s pid now).1.tasks, totalInv v := by
  rcases pauseTask_cases s pid now with ⟨e, he⟩ | ⟨task, cur, hget, _, hl, ho, he⟩
  · rw [he]
    exact hinv
  · rw [he]
    intro v hv
    rcases mem_replaceFirst hv with hv' | ⟨t, ht, rfl⟩
    · exact hinv v hv'
    · exact pauseUpdate_totalInv now t (hinv task (List.mem_of_find?_eq_some hget)) hl ho

theorem pauseAll_totalInv {ids : List Nat} {s : Store} (now : Time)
    (hinv : ∀ t ∈ s.tasks, totalInv t) :
    ∀ v ∈ (TaskManager.pauseAll s ids now).1.tasks, totalInv v := by
  induction ids generalizing s with
  | nil => exact hinv
  | cons i rest ih =>
    unfold TaskManager.pauseAll
    cases hp : TaskManager.pauseTask s i now with
    | mk sp o =>
      have hspinv : ∀ t ∈ sp.tasks, totalInv t := by
        have : sp = (TaskManager.pauseTask s i now).1 := by rw [hp]
        rw [this]
        exact pauseTask_totalInv i now hinv
      cases o with
      | err e => exact hspinv
      | ok u => exact ih hspinv

theorem startTask_totalInv {s : Store} (tid : Nat) (now : Time)
    (hinv : ∀ t ∈ s.tasks, totalInv t) :
    ∀ v ∈ (TaskManager.startTask s tid now).1.tasks, totalInv v := by
  cases hres : TaskManager.startTask s tid now with
  | mk s' o =>
    cases o with
    | err e =>
      unfold TaskManager.startTask at hres
      split at hres
      · obtain rfl : s = s' := congrArg Prod.fst hres
        exact hinv
      · rename_i task hg
        split at hres
        · obtain rfl : s = s' := congrArg Prod.fst hres
          exact hinv
        · rename_i hr
          split at hres
          · rename_i s1 e' hp
            obtain rfl : s1 = s' := congrArg Prod.fst hres
            have : s1 = (TaskManager.pauseAll s (TaskManager.runningIdsFor s tid) now).1 := by
              rw [hp]
            rw [this]
            exact pauseAll_totalInv now hinv
          · rename_i s1 hp
            have hs1inv : ∀ t ∈ s1.tasks, totalInv t := by
              have : s1 = (TaskManager.pauseAll s (TaskManager.runningIdsFor s tid) now).1 := by
                rw [hp]
              rw [this]
              exact pauseAll_totalInv now hinv
            cases hg2 : Storage.getTask s1 tid with
            | none =>
              have hupn : Storage.updateTask (Storage.setLastActiveTask s1 tid) tid
                  (TaskManager.startUpdate task now) =
                  (Storage.setLastActiveTask s1 tid, none) := by
                unfold Storage.updateTask
                rw [getTask_setLastActiveTask, hg2]
              simp only [hupn] at hres
              obtain rfl : Storage.setLastActiveTask s1 tid = s' := congrArg Prod.fst hres
              exact hs1inv
            | some tf =>
              have hup : Storage.updateTask (Storage.setLastActiveTask s1 tid) tid
                  (TaskManager.startUpdate task now) =
                  (⟨Storage.replaceFirst s1.tasks tid (TaskManager.startUpdate task now),
                    s1.nextId, some tid⟩, some (TaskManager.startUpdate task now tf)) := by
                unfold Storage.updateTask
                rw [getTask_setLastActiveTask, hg2]
                rfl
              simp only [hup] at hres
              simp at hres
    | ok u =>
      obtain ⟨task, s1, tf, hg, hr, hp, hg2, hs', hu⟩ := startTask_ok_inv hres
      have hs1inv : ∀ t ∈ s1.tasks, totalInv t := by
        have : s1 = (TaskManager.pauseAll s (TaskManager.runningIdsFor s tid) now).1 := by
          rw [hp]
        rw [this]
        exact pauseAll_totalInv now hinv
      have htf : tf = task := by
        have hpre : Storage.getTask s1 tid = Storage.getTask s tid := by
          have hs1 : s1 = (TaskManager.pauseAll s (TaskManager.runningIdsFor s tid) now).1 := by
            rw [hp]
          rw [hs1]
          exact pauseAll_getTask_ne s (not_mem_runningIdsFor s tid)
        rw [hpre, hg] at hg2
        injection hg2 with hg2'
        exact hg2'.symm
      subst htf
      subst hs'
      intro v hv
      have hfind : s1.tasks.find? (fun t => t.id == tid) = some tf := hg2
      obtain ⟨pre, post, hsplit, _, hrep⟩ :=
        replaceFirst_decomp hfind (TaskManager.startUpdate tf now)
      rw [hrep] at hv
      rcases List.mem_append.mp hv with hvpre | hvcons
      · exact hs1inv v (by rw [hsplit]; exact List.mem_append_left _ hvpre)
      · rcases List.mem_cons.mp hvcons with rfl | hvpost
        · exact startUpdate_totalInv now (hs1inv tf (by rw [hsplit]; simp))
        · refine hs1inv v ?_
          rw [hsplit]
          exact List.mem_append_right _ (List.mem_cons_of_mem _ hvpost)

theorem updateTask_cases (s : Store) (tid : Nat) (f : Task → Task) :
    (Storage.updateTask s tid f = (s, none) ∧ Storage.getTask s tid = none) ∨
    (∃ tf, Storage.getTask s tid = some tf ∧
      Storage.updateTask s tid f =
        (⟨Storage.replaceFirst s.tasks tid f, s.nextId, s.lastActiveTaskId⟩, some (f tf))) := by
  cases hg : Storage.getTask s tid with
  | none =>
    refine Or.inl ⟨?_, rfl⟩
    unfold Storage.updateTask
    rw [hg]
  | some tf =>
    refine Or.inr ⟨tf, rfl, ?_⟩
    unfold Storage.updateTask
    rw [hg]

theorem updateTask_fst_totalInv {s : Store} {tid : Nat} {f : Task → Task}
    (hinv : ∀ t ∈ s.tasks, totalInv t) (hf : ∀ t, totalInv t → totalInv (f t)) :
    ∀ v ∈ (Storage.updateTask s tid f).1.tasks, totalInv v := by
  rcases updateTask_cases s tid f with ⟨hup, -⟩ | ⟨tf, hg, hup⟩
  · rw [hup]
    exact hinv
  · rw [hup]
    intro v hv
    rcases mem_replaceFirst hv with hv' | ⟨t, ht, rfl⟩
    · exact hinv v hv'
    · exact hf t (hinv t ht)

theorem updateTask_matched_totalInv {s : Store} {tid : Nat} {f : Task → Task} (m : String)
    (hinv : ∀ t ∈ s.tasks, totalInv t) (hf : ∀ t, totalInv t → totalInv (f t)) :
    ∀ v ∈ (match Storage.updateTask s tid f with
      | (s'', some u) => (s'', Outcome.ok u)
      | (s'', none) => (s'', Outcome.err m)).1.tasks, totalInv v := by
  cases hu : Storage.updateTask s tid f with
  | mk a b =>
    have ha : a = (Storage.updateTask s tid f).1 := by rw [hu]
    cases b with
    | none =>
      show ∀ v ∈ a.tasks, totalInv v
      rw [ha]
      exact updateTask_fst_totalInv hinv hf
    | some u =>
      show ∀ v ∈ a.tasks, totalInv v
      rw [ha]
      exact updateTask_fst_totalInv hinv hf

theorem stopTask_totalInv {s : Store} (tid : Nat) (now : Time)
    (hinv : ∀ t ∈ s.tasks, totalInv t) :
    ∀ v ∈ (TaskManager.stopTask s tid now).1.tasks, totalInv v := by
  unfold TaskManager.stopTask
  split
  · exact hinv
  · rename_i task hg
    by_cases hr : task.status = .running
    · rw [if_pos hr]
      cases hpt : TaskManager.pauseTask s tid now with
      | mk sp o =>
        have hspinv : ∀ t ∈ sp.tasks, totalInv t := by
          have : sp = (TaskManager.pauseTask s tid now).1 := by rw [hpt]
          rw [this]
          exact pauseTask_totalInv tid now hinv
        cases o with
        | err e => exact hspinv
        | ok w =>
          exact updateTask_matched_totalInv _ hspinv (fun t ht => stopUpdate_totalInv now ht)
    · rw [if_neg hr]
      exact updateTask_matched_totalInv _ hinv (fun t ht => stopUpdate_totalInv now ht)

theorem unstopTask_totalInv {s : Store} (tid : Nat)
    (hinv : ∀ t ∈ s.tasks, totalInv t) :
    ∀ v ∈ (TaskManager.unstopTask s tid).1.tasks, totalInv v := by
  unfold TaskManager.unstopTask
  split
  · exact hinv
  · rename_i task hg
    by_cases hst : task.status = .stopped
    · rw [if_pos hst]
      exact updateTask_matched_totalInv _ hinv (fun t ht => unstopUpdate_totalInv ht)
    · rw [if_neg hst]
      exact hinv

theorem createTask_totalInv {s : Store} (name url : List Char) (now : Time)
    (hinv : ∀ t ∈ s.tasks, totalInv t) :
    ∀ v ∈ (TaskManager.createTask s name url now).1.tasks, totalInv v := by
  unfold TaskManager.createTask
  split
  · exact hinv
  · intro v hv
    simp only [Storage.createTask, List.mem_append, List.mem_singleton] at hv
    rcases hv with hv' | rfl
    · exact hinv v hv'
    · rfl

theorem applyOp_totalInv (s : Store) (op : Op) (now : Time)
    (hinv : ∀ t ∈ s.tasks, totalInv t) :
    ∀ v ∈ (applyOp s op now).1.tasks, totalInv v := by
  cases op with
  | create name url => exact createTask_totalInv name url now hinv
  | start id => exact startTask_totalInv id now hinv
  | pause id => exact pauseTask_totalInv id now hinv
  | stop id => exact stopTask_totalInv id now hinv
  | unstop id => exact unstopTask_totalInv id hinv

theorem updateTask_matched_map {β : Type} {s : Store} {tid : Nat} {f : Task → Task}
    (m : String) (g : Task → β) (hf : ∀ t, g (f t) = g t) :
    ((match Storage.updateTask s tid f with
      | (s'', some u) => (s'', Outcome.ok u)
      | (s'', none) => (s'', Outcome.err m)).1.tasks.map g) = s.tasks.map g := by
  have hbase : (Storage.updateTask s tid f).1.tasks.map g = s.tasks.map g := by
    rcases updateTask_cases s tid f with ⟨hup, -⟩ | ⟨tf, hg, hup⟩
    · rw [hup]
    · rw [hup]
      exact map_replaceFirst g hf
  cases hu : Storage.updateTask s tid f with
  | mk a b =>
    have ha : a.tasks.map g = s.tasks.map g := by
      rw [show a = (Storage.updateTask s tid f).1 by rw [hu]]
      exact hbase
    cases b with
    | none => exact ha
    | some u => exact ha

/-! ### Claim theorems -/

/-- C2 counterexample: the claim says `totalTime` is never changed by
`startTask`, but starting the created task 2 at instant 5000 auto-pauses the
running task 1 (open session since instant 0) and raises task 1's `totalTime`
from 0 to 5. -/
theorem C2_counterexample :
    Storage.getTask exStore 1 = some exTaskA ∧ exTaskA.totalTime = 0 ∧
    (Storage.getTask (TaskManager.startTask exStore 2 5000).1 1).map Task.totalTime =
      some 5 :=
  ⟨by decide, by decide, by decide⟩

/-- C2 (amended): for every task and operation, `totalTime` equals the sum of
`duration` over closed sessions only (the open session never counted); it is
changed only through `pauseTask` — including the pauses `stopTask` and
`startTask` perform internally — never directly: `createTask` leaves every
existing record untouched, `unstopTask` changes no task's `totalTime`, and
`startTask` never changes the started task's own `totalTime`. -/
theorem C2_totalTime_closed_sessions :
    (∀ (s : Store) (op : Op) (now : Time), (∀ t ∈ s.tasks, totalInv t) →
      ∀ v ∈ (applyOp s op now).1.tasks, totalInv v) ∧
    (∀ (s : Store) (name url : List Char) (now : Time),
      ∀ t ∈ s.tasks, t ∈ (TaskManager.createTask s name url now).1.tasks) ∧
    (∀ (s : Store) (tid : Nat),
      (TaskManager.unstopTask s tid).1.tasks.map (fun t => (t.id, t.totalTime)) =
        s.tasks.map (fun t => (t.id, t.totalTime))) ∧
    (∀ (s : Store) (tid : Nat) (now : Time) (s' : Store) (u task : Task),
      Storage.getTask s tid = some task →
      TaskManager.startTask s tid now = (s', .ok u) →
      u.totalTime = task.totalTime) := by
  refine ⟨applyOp_totalInv, ?_, ?_, ?_⟩
  · intro s name url now t ht
    unfold TaskManager.createTask
    split
    · exact ht
    · simp only [Storage.createTask]
      exact List.mem_append_left _ ht
  · intro s tid
    unfold TaskManager.unstopTask
    split
    · rfl
    · rename_i task hg
      split
      · exact updateTask_matched_map _ _ (fun t => rfl)
      · rfl
  · intro s tid now s' u task hget hres
    obtain ⟨task', s1, tf, hg', hr, hp, hg2, hs', hu⟩ := startTask_ok_inv hres
    have htf : tf = task := by
      have hpre : Storage.getTask s1 tid = Storage.getTask s tid := by
        rw [show s1 = (TaskManager.pauseAll s (TaskManager.runningIdsFor s tid) now).1
          by rw [hp]]
        exact pauseAll_getTask_ne s (not_mem_runningIdsFor s tid)
      rw [hpre, hget] at hg2
      injection hg2 with h
      exact h.symm
    rw [hu, htf]
    rfl

/-- Witness for C2: the example store satisfies the accounting invariant, and
it still holds after a concrete `startTask` call. -/
theorem C2_witness :
    (∀ t ∈ exStore.tasks, totalInv t) ∧
    (∀ v ∈ (applyOp exStore (Op.start 2) 5000).1.tasks, totalInv v) :=
  ⟨by decide, C2_totalTime_closed_sessions.1 exStore (Op.start 2) 5000 (by decide)⟩

/-- C3: on a well-formed store with a fresh `nextId`, the sequence
`createTask name` → `startTask` on the new id at `t0` → `pauseTask` at
`t1 ≥ t0` returns a task whose `totalTime` is `floor((t1 - t0)/1s)` and whose
session list is exactly one closed session with `durationSeconds` equal to that
`totalTime`. -/
theorem C3_round_trip {s : Store} {name : List Char} {tc t0 t1 : Time}
    (hwf : StoreWF s)
    (hfresh : s.nextId ∉ s.tasks.map Task.id)
    (hname : jsTrim name ≠ [])
    (hwait : t0 ≤ t1) :
    ∃ u, (TaskManager.pauseTask
        (TaskManager.startTask (TaskManager.createTask s name [] tc).1 s.nextId t0).1
        s.nextId t1).2 = .ok u ∧
      u.totalTime = (t1 - t0).fdiv 1000 ∧
      u.sessions = [⟨t0, some t1, (t1 - t0).fdiv 1000⟩] := by
  obtain ⟨hnodup, hrwf⟩ := hwf
  have hc : (TaskManager.createTask s name [] tc).1 =
      ⟨s.tasks ++ [⟨s.nextId, jsTrim name, [], .created, [], 0, tc, none, none, none⟩],
        s.nextId + 1, s.lastActiveTaskId⟩ := by
    unfold TaskManager.createTask
    rw [if_neg hname]
    rfl
  have hno : ∀ x ∈ s.tasks, (x.id == s.nextId) = false := by
    intro x hx
    simp only [beq_eq_false_iff_ne, ne_eq]
    intro hcontra
    exact hfresh (hcontra ▸ List.mem_map_of_mem Task.id hx)
  have hg1 : Storage.getTask (TaskManager.createTask s name [] tc).1 s.nextId =
      some ⟨s.nextId, jsTrim name, [], .created, [], 0, tc, none, none, none⟩ := by
    rw [hc]
    show (s.tasks ++
      [(⟨s.nextId, jsTrim name, [], .created, [], 0, tc, none, none, none⟩ : Task)]).find?
      (fun t => t.id == s.nextId) = _
    rw [find?_append_of_none hno]
    simp
  have hwf1 : StoreWF (TaskManager.createTask s name [] tc).1 := by
    rw [hc]
    constructor
    · show ((s.tasks ++ [_]).map Task.id).Nodup
      rw [List.map_append, List.nodup_append]
      refine ⟨hnodup, by simp, ?_⟩
      intro a ha hb
      simp at hb
      subst hb
      exact hfresh ha
    · intro t ht hrun
      rcases List.mem_append.mp ht with h1 | h2
      · exact hrwf t h1 hrun
      · simp at h2
        subst h2
        simp at hrun
  obtain ⟨s2, hstart, hg2', hids2, hnext2⟩ :=
    startTask_ok_full t0 hwf1 hg1 (by simp)
  have e2 : (TaskManager.startTask (TaskManager.createTask s name [] tc).1 s.nextId t0).1
      = s2 := by
    rw [hstart]
  have hlast0 : (TaskManager.startUpdate
      ⟨s.nextId, jsTrim name, [], .created, [], 0, tc, none, none, none⟩ t0
      ⟨s.nextId, jsTrim name, [], .created, [], 0, tc, none, none, none⟩).sessions.getLast? =
      some (TaskManager.openSession t0) := rfl
  have hpok := pauseTask_ok t1 hg2' rfl hlast0 rfl
  refine ⟨TaskManager.pauseUpdate
      (TaskManager.startUpdate
        ⟨s.nextId, jsTrim name, [], .created, [], 0, tc, none, none, none⟩ t0
        ⟨s.nextId, jsTrim name, [], .created, [], 0, tc, none, none, none⟩)
      t1 (TaskManager.openSession t0)
      (TaskManager.startUpdate
        ⟨s.nextId, jsTrim name, [], .created, [], 0, tc, none, none, none⟩ t0
        ⟨s.nextId, jsTrim name, [], .created, [], 0, tc, none, none, none⟩), ?_, ?_, ?_⟩
  · rw [e2, hpok]
  · show (0 : Int) + (t1 - t0).fdiv 1000 = (t1 - t0).fdiv 1000
    exact zero_add _
  · rfl

theorem stampsBefore_spec {bound : Time} {t : Task} (h : stampsBefore bound t = true) :
    (∀ x, t.lastStarted = some x → x < bound) ∧
    (∀ x, t.lastPaused = some x → x < bound) ∧
    ∀ sess ∈ t.sessions, sess.startTime < bound ∧ ∀ e, sess.endTime = some e → e < bound := by
  unfold stampsBefore at h
  rw [Bool.and_eq_true, Bool.and_eq_true] at h
  obtain ⟨⟨h1, h2⟩, h3⟩ := h
  refine ⟨?_, ?_, ?_⟩
  · intro x hx
    rw [hx] at h1
    simpa using h1
  · intro x hx
    rw [hx] at h2
    simpa using h2
  · intro sess hsess
    have := List.all_eq_true.mp h3 sess hsess
    rw [Bool.and_eq_true] at this
    refine ⟨by simpa using this.1, ?_⟩
    intro e he
    have h4 := this.2
    rw [he] at h4
    simpa using h4

theorem optStampSince_iff {dayStart dayEnd : Time} {o : Option Time}
    (hb : ∀ x, o = some x → x < dayEnd) :
    TaskManager.optStampSince dayStart o = true ↔
      ∃ x, o = some x ∧ dayStart ≤ x ∧ x < dayEnd := by
  cases ho : o with
  | none => simp [TaskManager.optStampSince]
  | some x =>
    rw [ho] at hb
    simp [TaskManager.optStampSince, hb x rfl]

theorem sessionToday_iff {dayStart dayEnd : Time} {sess : Session}
    (hb1 : sess.startTime < dayEnd)
    (hb2 : ∀ e, sess.endTime = some e → e < dayEnd) :
    TaskManager.sessionToday dayStart sess = true ↔
      ((dayStart ≤ sess.startTime ∧ sess.startTime < dayEnd) ∨
        ∃ e, sess.endTime = some e ∧ dayStart ≤ e ∧ e < dayEnd) := by
  unfold TaskManager.sessionToday TaskManager.optStampSince
  cases he : sess.endTime with
  | none => simp [hb1]
  | some e =>
    rw [he] at hb2
    simp [hb1, hb2 e rfl]

theorem taskActiveToday_iff {dayStart dayEnd : Time} {t : Task}
    (hb : stampsBefore dayEnd t = true) :
    TaskManager.taskActiveToday dayStart t = true ↔ ActivityToday dayStart dayEnd t := by
  obtain ⟨hb1, hb2, hb3⟩ := stampsBefore_spec hb
  unfold TaskManager.taskActiveToday ActivityToday
  split
  · rename_i h1
    exact iff_of_true rfl (Or.inl ((optStampSince_iff hb1).mp h1))
  · rename_i h1
    split
    · rename_i h2
      exact iff_of_true rfl (Or.inr (Or.inl ((optStampSince_iff hb2).mp h2)))
    · rename_i h2
      have hnol : ¬∃ x, t.lastStarted = some x ∧ dayStart ≤ x ∧ x < dayEnd :=
        fun hc => h1 ((optStampSince_iff hb1).mpr hc)
      have hnop : ¬∃ x, t.lastPaused = some x ∧ dayStart ≤ x ∧ x < dayEnd :=
        fun hc => h2 ((optStampSince_iff hb2).mpr hc)
      split
      · rename_i hlen
        constructor
        · intro hany
          obtain ⟨sess, hmem, hsess⟩ := List.any_eq_true.mp hany
          refine Or.inr (Or.inr ⟨sess, hmem, ?_⟩)
          exact (sessionToday_iff (hb3 sess hmem).1 (hb3 sess hmem).2).mp hsess
        · intro hact
          rcases hact with hc | hc | ⟨sess, hmem, hcase⟩
          · exact absurd hc hnol
          · exact absurd hc hnop
          · exact List.any_eq_true.mpr ⟨sess, hmem,
              (sessionToday_iff (hb3 sess hmem).1 (hb3 sess hmem).2).mpr hcase⟩
      · rename_i hlen
        have hnil : t.sessions = [] := by
          cases hsl : t.sessions with
          | nil => rfl
          | cons a l => rw [hsl] at hlen; simp at hlen
        refine iff_of_false (by simp) ?_
        rintro (hc | hc | ⟨sess, hmem, -⟩)
        · exact hnol hc
        · exact hnop hc
        · rw [hnil] at hmem
          simp at hmem

/-- Witness for C3 on the example store: create task "C" (id 3), start it at
instant 1000, pause at instant 4600; the task shows 3 tracked seconds in one
closed session. -/
theorem C3_witness :
    (StoreWF exStore ∧ exStore.nextId ∉ exStore.tasks.map Task.id ∧
      jsTrim ['C'] ≠ [] ∧ (1000 : Int) ≤ 4600) ∧
    ∃ u, (TaskManager.pauseTask
        (TaskManager.startTask (TaskManager.createTask exStore ['C'] [] 100).1
          exStore.nextId 1000).1
        exStore.nextId 4600).2 = .ok u ∧
      u.totalTime = ((4600 : Int) - 1000).fdiv 1000 ∧
      u.sessions = [⟨1000, some 4600, ((4600 : Int) - 1000).fdiv 1000⟩] :=
  ⟨⟨by decide, by decide, by decide, by decide⟩,
   C3_round_trip (by decide) (by decide) (by decide) (by decide)⟩

/-- C1: on a store with pairwise-distinct task ids, whenever a `startTask` call
completes normally, at most one task in the resulting store has status
`running` (startTask pauses every other running task before marking the target
running); since this holds after every completed call regardless of the prior
state, it holds after each call of any sequence of `startTask` calls. -/
theorem C1_start_at_most_one_running {s : Store} {taskId : Nat} {now : Time}
    (hnodup : (s.tasks.map Task.id).Nodup)
    (hok : isOk (TaskManager.startTask s taskId now).2 = true) :
    runningCount (TaskManager.startTask s taskId now).1 ≤ 1 := by
  cases hres : TaskManager.startTask s taskId now with
  | mk s' o =>
    rw [hres] at hok
    cases o with
    | err e => simp [isOk] at hok
    | ok u =>
      show runningCount s' ≤ 1
      obtain ⟨task, s1, tf, hg, hr, hp, hg2, hs', hu⟩ := startTask_ok_inv hres
      obtain ⟨hids1, hrunchar⟩ := pauseAll_ok_running hnodup hp
      have hfind0 : s1.tasks.find? (fun t => t.id == taskId) = some tf := hg2
      have htfid : tf.id = taskId := by
        simpa using List.find?_some hfind0
      have hndS' : (s'.tasks.map Task.id).Nodup := by
        rw [hs']
        show ((Storage.replaceFirst s1.tasks taskId
          (TaskManager.startUpdate task now)).map Task.id).Nodup
        rw [map_replaceFirst Task.id (startUpdate_id task now), hids1]
        exact hnodup
      refine runningCount_le_one hndS' taskId ?_
      intro v hv hvrun
      rw [hs'] at hv
      obtain ⟨pre, post, hsplit, _, hrep⟩ :=
        replaceFirst_decomp hfind0 (TaskManager.startUpdate task now)
      rw [hrep] at hv
      have hvs1 : v ∈ s1.tasks → v.id = taskId := by
        intro hv1
        obtain ⟨hvs, hvrun', hvnotin⟩ := hrunchar v hv1 hvrun
        by_contra hne
        exact hvnotin (mem_runningIdsFor hvs hvrun' hne)
      rcases List.mem_append.mp hv with hvpre | hvcons
      · exact hvs1 (by rw [hsplit]; exact List.mem_append_left _ hvpre)
      · rcases List.mem_cons.mp hvcons with rfl | hvpost
        · exact htfid
        · refine hvs1 ?_
          rw [hsplit]
          exact List.mem_append_right _ (List.mem_cons_of_mem _ hvpost)

/-- Witness for C1 at a concrete store: starting the created task 2 while task
1 is running leaves at most one running task. -/
theorem C1_witness :
    ((exStore.tasks.map Task.id).Nodup ∧
      isOk (TaskManager.startTask exStore 2 5000).2 = true) ∧
    runningCount (TaskManager.startTask exStore 2 5000).1 ≤ 1 :=
  ⟨⟨by decide, by decide⟩, C1_start_at_most_one_running (by decide) (by decide)⟩

/-- C4: the seconds value the visual renderer displays for a task equals
`totalTime + floor((now - lastStarted)/1s)` when the task is running (with its
`lastStarted` stamp set, as every running task has), and exactly `totalTime`
for any other status. -/
theorem C4_display_elapsed_time (task : Task) (now : Time) :
    (∀ t0, task.status = .running → task.lastStarted = some t0 →
      timeDisplaySeconds task now = task.totalTime + (now - t0).fdiv 1000) ∧
    (task.status ≠ .running → timeDisplaySeconds task now = task.totalTime) := by
  constructor
  · intro t0 hrun hls
    simp [timeDisplaySeconds, TaskManager.getCurrentRunningTime, hrun, hls]
  · intro hne
    simp [timeDisplaySeconds, hne]

/-- Witness for C4 on a concrete running task and a concrete created task. -/
theorem C4_witness :
    (exTaskA.status = .running ∧ exTaskA.lastStarted = some 0 ∧
      timeDisplaySeconds exTaskA 7400 = exTaskA.totalTime + ((7400 : Int) - 0).fdiv 1000) ∧
    (exTaskB.status ≠ .running ∧ timeDisplaySeconds exTaskB 7400 = exTaskB.totalTime) :=
  ⟨⟨by decide, by decide,
    (C4_display_elapsed_time exTaskA 7400).1 0 (by decide) (by decide)⟩,
   ⟨by decide, (C4_display_elapsed_time exTaskB 7400).2 (by decide)⟩⟩

/-- C5: `pauseTask` on a task whose status is `paused` or `created` throws the
invalid-transition error "Task is not currently running" and leaves the whole
store — in particular that task's record — unchanged. -/
theorem C5_pause_non_running_unchanged {s : Store} {tid : Nat} {now : Time} {task : Task}
    (hget : Storage.getTask s tid = some task)
    (hst : task.status = .paused ∨ task.status = .created) :
    TaskManager.pauseTask s tid now = (s, .err "Task is not currently running") := by
  have hr : ¬task.status = .running := by
    rcases hst with h | h <;> simp [h]
  simp [TaskManager.pauseTask, hget, hr]

/-- Witness for C5: pausing the created task 2 of the example store errs and
returns the store unchanged. -/
theorem C5_witness :
    (Storage.getTask exStore 2 = some exTaskB ∧
      (exTaskB.status = .paused ∨ exTaskB.status = .created)) ∧
    TaskManager.pauseTask exStore 2 5000 = (exStore, .err "Task is not currently running") :=
  ⟨⟨by decide, Or.inr (by decide)⟩,
   C5_pause_non_running_unchanged
     (show Storage.getTask exStore 2 = some exTaskB by decide) (Or.inr (by decide))⟩

/-- C9: `pauseTask` on a running task all of whose sessions are closed (or that
has none) throws "No active session found" and leaves the store unchanged; when
the open-session invariant holds for the task (its last session is open), that
error branch is not taken and the call succeeds. -/
theorem C9_pause_no_active_session {s : Store} {tid : Nat} {now : Time} {task : Task}
    (hget : Storage.getTask s tid = some task)
    (hrun : task.status = .running) :
    ((∀ sess ∈ task.sessions, sess.endTime ≠ none) →
      TaskManager.pauseTask s tid now = (s, .err "No active session found")) ∧
    (lastOpen task = true → ∃ s' u, TaskManager.pauseTask s tid now = (s', .ok u)) := by
  constructor
  · intro hclosed
    cases hl : task.sessions.getLast? with
    | none => simp [TaskManager.pauseTask, hget, hrun, hl]
    | some cur =>
      have hmem : cur ∈ task.sessions := by
        rw [getLast?_decomp hl]
        simp
      have ho : ¬cur.endTime = none := hclosed cur hmem
      simp [TaskManager.pauseTask, hget, hrun, hl, ho]
  · intro hopen
    obtain ⟨cur, hl, ho⟩ := lastOpen_iff.mp hopen
    exact ⟨_, _, pauseTask_ok now hget hrun hl ho⟩

/-- Witness for C9: the corrupt store's running task with a closed session errs
without mutation, and the well-formed running task pauses successfully. -/
theorem C9_witness :
    (Storage.getTask exStoreCorrupt 7 = some exTaskCorrupt ∧
      exTaskCorrupt.status = .running ∧
      (∀ sess ∈ exTaskCorrupt.sessions, sess.endTime ≠ none) ∧
      TaskManager.pauseTask exStoreCorrupt 7 9000 =
        (exStoreCorrupt, .err "No active session found")) ∧
    (lastOpen exTaskA = true ∧
      ∃ s' u, TaskManager.pauseTask exStore 1 9000 = (s', .ok u)) :=
  ⟨⟨by decide, by decide, by decide,
    (C9_pause_no_active_session
      (show Storage.getTask exStoreCorrupt 7 = some exTaskCorrupt by decide)
      (by decide)).1 (by decide)⟩,
   ⟨by decide,
    (C9_pause_no_active_session
      (show Storage.getTask exStore 1 = some exTaskA by decide)
      (by decide)).2 (by decide)⟩⟩

/-- C10: `stopTask` succeeds for every existing task regardless of status. For
a non-running task (including `stopped` and `created`) it only sets
`status = stopped` and `stoppedAt = now`, leaving sessions and totalTime
unchanged; for a running task (with the open-session invariant) it pauses
first and then succeeds with `status = stopped`, `stoppedAt = now`. -/
theorem C10_stop_any_status {s : Store} {tid : Nat} {now : Time} {task : Task}
    (hget : Storage.getTask s tid = some task) :
    (¬task.status = .running →
      TaskManager.stopTask s tid now =
        (⟨Storage.replaceFirst s.tasks tid (TaskManager.stopUpdate now), s.nextId,
          s.lastActiveTaskId⟩, .ok (TaskManager.stopUpdate now task)) ∧
      (TaskManager.stopUpdate now task).status = .stopped ∧
      (TaskManager.stopUpdate now task).stoppedAt = some now ∧
      (TaskManager.stopUpdate now task).sessions = task.sessions ∧
      (TaskManager.stopUpdate now task).totalTime = task.totalTime) ∧
    (task.status = .running → lastOpen task = true →
      ∃ s' u, TaskManager.stopTask s tid now = (s', .ok u) ∧
        u.status = .stopped ∧ u.stoppedAt = some now) := by
  constructor
  · intro hr
    have hup : Storage.updateTask s tid (TaskManager.stopUpdate now) =
        (⟨Storage.replaceFirst s.tasks tid (TaskManager.stopUpdate now), s.nextId,
          s.lastActiveTaskId⟩, some (TaskManager.stopUpdate now task)) := by
      unfold Storage.updateTask
      rw [hget]
    exact ⟨by simp [TaskManager.stopTask, hget, hr, hup], rfl, rfl, rfl, rfl⟩
  · intro hrun hopen
    obtain ⟨cur, hl, ho⟩ := lastOpen_iff.mp hopen
    have hpok := pauseTask_ok now hget hrun hl ho
    have hfind : s.tasks.find? (fun t => t.id == tid) = some task := hget
    have hg2 : Storage.getTask
        (⟨Storage.replaceFirst s.tasks tid (TaskManager.pauseUpdate task now cur),
          s.nextId, some tid⟩ : Store) tid =
        some (TaskManager.pauseUpdate task now cur task) :=
      find?_replaceFirst_self hfind (pauseUpdate_id task now cur)
    have hup : Storage.updateTask
        (⟨Storage.replaceFirst s.tasks tid (TaskManager.pauseUpdate task now cur),
          s.nextId, some tid⟩ : Store) tid (TaskManager.stopUpdate now) =
        (⟨Storage.replaceFirst
            (Storage.replaceFirst s.tasks tid (TaskManager.pauseUpdate task now cur))
            tid (TaskManager.stopUpdate now), s.nextId, some tid⟩,
          some (TaskManager.stopUpdate now (TaskManager.pauseUpdate task now cur task))) := by
      unfold Storage.updateTask
      rw [hg2]
    refine ⟨⟨Storage.replaceFirst
        (Storage.replaceFirst s.tasks tid (TaskManager.pauseUpdate task now cur)) tid
        (TaskManager.stopUpdate now), s.nextId, some tid⟩,
      TaskManager.stopUpdate now (TaskManager.pauseUpdate task now cur task),
      ?_, rfl, rfl⟩
    simp [TaskManager.stopTask, hget, hrun, hpok, hup]

/-- Witness for C10: stopping the created task and the running task of the
example store both succeed with the claimed record shapes. -/
theorem C10_witness :
    (Storage.getTask exStore 2 = some exTaskB ∧ ¬exTaskB.status = .running ∧
      TaskManager.stopTask exStore 2 6000 =
        (⟨Storage.replaceFirst exStore.tasks 2 (TaskManager.stopUpdate 6000), exStore.nextId,
          exStore.lastActiveTaskId⟩, .ok (TaskManager.stopUpdate 6000 exTaskB)) ∧
      (TaskManager.stopUpdate 6000 exTaskB).sessions = exTaskB.sessions ∧
      (TaskManager.stopUpdate 6000 exTaskB).totalTime = exTaskB.totalTime) ∧
    (exTaskA.status = .running ∧ lastOpen exTaskA = true ∧
      ∃ s' u, TaskManager.stopTask exStore 1 6000 = (s', .ok u) ∧
        u.status = .stopped ∧ u.stoppedAt = some 6000) := by
  constructor
  · refine ⟨by decide, by decide, ?_, by decide, by decide⟩
    exact ((C10_stop_any_status
      (show Storage.getTask exStore 2 = some exTaskB by decide)).1 (by decide)).1
  · refine ⟨by decide, by decide, ?_⟩
    exact (C10_stop_any_status
      (show Storage.getTask exStore 1 = some exTaskA by decide)).2 (by decide) (by decide)

/-- C7: when every timestamp of the store lies before the end of the current
day, the visual list (today's tasks with stopped ones filtered out) contains a
task exactly when the task is in the store, has activity within the current
calendar day — a session starting or ending today, or lastStarted/lastPaused
today — and is not stopped. -/
theorem C7_today_view {s : Store} {dayStart dayEnd : Time}
    (hbound : ∀ t ∈ s.tasks, stampsBefore dayEnd t = true) :
    ∀ t, t ∈ VisualMode.refreshTasks s dayStart ↔
      (t ∈ s.tasks ∧ ActivityToday dayStart dayEnd t ∧ t.status ≠ .stopped) := by
  intro t
  unfold VisualMode.refreshTasks TaskManager.getTodaysTasks
  rw [List.mem_filter, List.mem_filter]
  constructor
  · rintro ⟨⟨hmem, hact⟩, hstop⟩
    exact ⟨hmem, (taskActiveToday_iff (hbound t hmem)).mp hact, by simpa using hstop⟩
  · rintro ⟨hmem, hact, hstop⟩
    exact ⟨⟨hmem, (taskActiveToday_iff (hbound t hmem)).mpr hact⟩, by simpa using hstop⟩

/-- Witness for C7 on a concrete store whose stamps all fall inside the day
`[0, 86400000)`: the membership characterization holds for the running task and
for the stopped task (which is excluded). -/
theorem C7_witness :
    (∀ t ∈ exStoreToday.tasks, stampsBefore 86400000 t = true) ∧
    (exTaskA ∈ VisualMode.refreshTasks exStoreToday 0 ↔
      (exTaskA ∈ exStoreToday.tasks ∧ ActivityToday 0 86400000 exTaskA ∧
        exTaskA.status ≠ .stopped)) ∧
    (exTaskStopped ∈ VisualMode.refreshTasks exStoreToday 0 ↔
      (exTaskStopped ∈ exStoreToday.tasks ∧ ActivityToday 0 86400000 exTaskStopped ∧
        exTaskStopped.status ≠ .stopped)) :=
  ⟨by decide, C7_today_view (by decide) exTaskA, C7_today_view (by decide) exTaskStopped⟩

theorem find?_filter_first {α : Type} (q p : α → Bool) (t : α) :
    ∀ (l : List α), (l.filter q).find? p = some t ↔
      ∃ pre post, l = pre ++ t :: post ∧ (q t = true ∧ p t = true) ∧
        ∀ u ∈ pre, ¬(q u = true ∧ p u = true) := by
  intro l
  induction l with
  | nil => simp
  | cons hd tl ih =>
    by_cases hq : q hd = true
    · rw [List.filter_cons_of_pos hq]
      by_cases hp : p hd = true
      · rw [List.find?_cons_of_pos _ hp]
        constructor
        · intro h
          injection h with h
          subst h
          exact ⟨[], tl, rfl, ⟨hq, hp⟩, by simp⟩
        · rintro ⟨pre, post, heq, ⟨hqt, hpt⟩, hpre⟩
          cases pre with
          | nil =>
            have h2 : hd = t := by simpa using congrArg (fun l => l.head?) heq
            rw [h2]
          | cons a pre' =>
            have h2 : hd = a ∧ tl = pre' ++ t :: post := by simpa using heq
            obtain ⟨rfl, -⟩ := h2
            exact absurd ⟨hq, hp⟩ (hpre hd (by simp))
      · rw [List.find?_cons_of_neg _ hp, ih]
        constructor
        · rintro ⟨pre, post, heq, hgood, hpre⟩
          refine ⟨hd :: pre, post, by rw [heq]; rfl, hgood, ?_⟩
          intro u hu
          rcases List.mem_cons.mp hu with rfl | hu'
          · rintro ⟨-, hpu⟩
            exact hp hpu
          · exact hpre u hu'
        · rintro ⟨pre, post, heq, hgood, hpre⟩
          cases pre with
          | nil =>
            have h2 : hd = t := by simpa using congrArg (fun l => l.head?) heq
            subst h2
            exact absurd hgood.2 hp
          | cons a pre' =>
            have h2 : hd = a ∧ tl = pre' ++ t :: post := by simpa using heq
            obtain ⟨rfl, htl⟩ := h2
            exact ⟨pre', post, htl, hgood, fun u hu => hpre u (List.mem_cons_of_mem _ hu)⟩
    · rw [List.filter_cons_of_neg hq, ih]
      constructor
      · rintro ⟨pre, post, heq, hgood, hpre⟩
        refine ⟨hd :: pre, post, by rw [heq]; rfl, hgood, ?_⟩
        intro u hu
        rcases List.mem_cons.mp hu with rfl | hu'
        · rintro ⟨hqu, -⟩
          exact hq hqu
        · exact hpre u hu'
      · rintro ⟨pre, post, heq, hgood, hpre⟩
        cases pre with
        | nil =>
          have h2 : hd = t := by simpa using congrArg (fun l => l.head?) heq
          subst h2
          exact absurd hgood.1 hq
        | cons a pre' =>
          have h2 : hd = a ∧ tl = pre' ++ t :: post := by simpa using heq
          obtain ⟨rfl, htl⟩ := h2
          exact ⟨pre', post, htl, hgood, fun u hu => hpre u (List.mem_cons_of_mem _ hu)⟩

/-- C8: the line-mode resolver returns task `t` for input `input` exactly when
`t` is the first task in store order that is a candidate — not stopped, matched
by numeric id precisely when the input is all digits, and otherwise by
case-insensitive substring (or equality) on the name. In particular stopped
tasks are never returned and id matching happens if and only if the input is
purely numeric. -/
theorem C8_findTask_first_good_match (tasks : List Task) (input : List Char) (t : Task) :
    InteractiveMode.findTask tasks input = some t ↔
      ∃ pre post, tasks = pre ++ t :: post ∧ goodMatch input t ∧
        ∀ u ∈ pre, ¬goodMatch input u := by
  unfold InteractiveMode.findTask
  by_cases hdig : isAllDigits input = true
  · rw [if_pos hdig, find?_filter_first]
    have hiff : ∀ u : Task,
        ((!(u.status == Status.stopped)) = true ∧ (u.id == digitsToNat input) = true) ↔
          goodMatch input u := by
      intro u
      unfold goodMatch
      rw [if_pos hdig]
      simp
    constructor
    · rintro ⟨pre, post, heq, hgood, hpre⟩
      exact ⟨pre, post, heq, (hiff t).mp hgood, fun u hu hc => hpre u hu ((hiff u).mpr hc)⟩
    · rintro ⟨pre, post, heq, hgood, hpre⟩
      exact ⟨pre, post, heq, (hiff t).mpr hgood, fun u hu hc => hpre u hu ((hiff u).mp hc)⟩
  · rw [if_neg hdig, find?_filter_first]
    have hiff : ∀ u : Task,
        ((!(u.status == Status.stopped)) = true ∧
          (containsSub (toLowerStr input) (toLowerStr u.name) ||
            toLowerStr u.name == toLowerStr input) = true) ↔
          goodMatch input u := by
      intro u
      unfold goodMatch
      rw [if_neg hdig]
      simp
    constructor
    · rintro ⟨pre, post, heq, hgood, hpre⟩
      exact ⟨pre, post, heq, (hiff t).mp hgood, fun u hu hc => hpre u hu ((hiff u).mpr hc)⟩
    · rintro ⟨pre, post, heq, hgood, hpre⟩
      exact ⟨pre, post, heq, (hiff t).mpr hgood, fun u hu hc => hpre u hu ((hiff u).mp hc)⟩

theorem createAndStart_ok {s : Store} {input : List Char} (now : Time)
    (hwf : StoreWF s) (hfresh : s.nextId ∉ s.tasks.map Task.id)
    (hname : jsTrim input ≠ []) :
    ∃ s' u, VisualMode.createAndStartTask s input now = (s', .ok u) ∧
      Storage.getTask s' s.nextId = some u ∧ u.id = s.nextId ∧
      u.name = jsTrim input ∧ u.status = .running := by
  obtain ⟨hnodup, hrwf⟩ := hwf
  have hc : TaskManager.createTask s input [] now =
      (⟨s.tasks ++ [⟨s.nextId, jsTrim input, [], .created, [], 0, now, none, none, none⟩],
        s.nextId + 1, s.lastActiveTaskId⟩,
       .ok ⟨s.nextId, jsTrim input, [], .created, [], 0, now, none, none, none⟩) := by
    unfold TaskManager.createTask
    rw [if_neg hname]
    rfl
  have hno : ∀ x ∈ s.tasks, (x.id == s.nextId) = false := by
    intro x hx
    simp only [beq_eq_false_iff_ne, ne_eq]
    intro hcontra
    exact hfresh (hcontra ▸ List.mem_map_of_mem Task.id hx)
  have hg1 : Storage.getTask
      (⟨s.tasks ++ [⟨s.nextId, jsTrim input, [], .created, [], 0, now, none, none, none⟩],
        s.nextId + 1, s.lastActiveTaskId⟩ : Store) s.nextId =
      some ⟨s.nextId, jsTrim input, [], .created, [], 0, now, none, none, none⟩ := by
    show (s.tasks ++
      [(⟨s.nextId, jsTrim input, [], .created, [], 0, now, none, none, none⟩ : Task)]).find?
      (fun t => t.id == s.nextId) = _
    rw [find?_append_of_none hno]
    simp
  have hwf1 : StoreWF
      ⟨s.tasks ++ [⟨s.nextId, jsTrim input, [], .created, [], 0, now, none, none, none⟩],
        s.nextId + 1, s.lastActiveTaskId⟩ := by
    constructor
    · show ((s.tasks ++ [_]).map Task.id).Nodup
      rw [List.map_append, List.nodup_append]
      refine ⟨hnodup, by simp, ?_⟩
      intro a ha hb
      simp at hb
      subst hb
      exact hfresh ha
    · intro t ht hrun
      rcases List.mem_append.mp ht with h1 | h2
      · exact hrwf t h1 hrun
      · simp at h2
        subst h2
        simp at hrun
  obtain ⟨s2, hstart, hg2', hids2, hnext2⟩ := startTask_ok_full now hwf1 hg1 (by simp)
  refine ⟨s2, TaskManager.startUpdate
      ⟨s.nextId, jsTrim input, [], .created, [], 0, now, none, none, none⟩ now
      ⟨s.nextId, jsTrim input, [], .created, [], 0, now, none, none, none⟩,
    ?_, hg2', rfl, rfl, rfl⟩
  unfold VisualMode.createAndStartTask
  rw [hc]
  exact hstart

/-- C6 counterexample: in the visual-mode control loop, the command
`start 5` — whose argument is purely numeric and resolves to no task on the
displayed list — silently creates and starts a task named "5" instead of
reporting not-found: the store grows from 2 tasks to 3 and task 3 is named
"5". -/
theorem C6_counterexample :
    isAllDigits ['5'] = true ∧
    InteractiveMode.findTask exStore.tasks ['5'] = none ∧
    (VisualMode.startTaskByName exStore (VisualMode.refreshTasks exStore 0) ['5']
      2000).1.tasks.length = 3 ∧
    (Storage.getTask (VisualMode.startTaskByName exStore (VisualMode.refreshTasks exStore 0)
      ['5'] 2000).1 3).map Task.name = some ['5'] := by
  refine ⟨by decide, by decide, by decide, by decide⟩

/-- C6 (amended): the claimed behaviour holds for the line-based interactive
handler: `start <arg>` with an unresolved purely-numeric argument reports
not-found and never mutates the store, and with an unresolved non-numeric
argument creates a task named with the trimmed argument and starts it. The
visual-mode control loop instead resolves only by case-insensitive name
substring over the displayed list and creates-and-starts a new task for any
unresolved argument, numeric or not. -/
theorem C6_start_command_resolution :
    (∀ (s : Store) (input : List Char) (now : Time),
      InteractiveMode.findTask s.tasks input = none → isAllDigits input = true →
      InteractiveMode.startTask s input now = (s, .err "Task with ID not found")) ∧
    (∀ (s : Store) (input : List Char) (now : Time),
      StoreWF s → s.nextId ∉ s.tasks.map Task.id →
      InteractiveMode.findTask s.tasks input = none → isAllDigits input = false →
      jsTrim input ≠ [] →
      ∃ s' u, InteractiveMode.startTask s input now = (s', .ok u) ∧
        Storage.getTask s' s.nextId = some u ∧ u.id = s.nextId ∧
        u.name = jsTrim input ∧ u.status = .running) ∧
    (∀ (s : Store) (visTasks : List Task) (input : List Char) (now : Time),
      StoreWF s → s.nextId ∉ s.tasks.map Task.id →
      visTasks.find? (fun t => containsSub (toLowerStr input) (toLowerStr t.name)) = none →
      jsTrim input ≠ [] →
      ∃ s' u, VisualMode.startTaskByName s visTasks input now = (s', .ok u) ∧
        Storage.getTask s' s.nextId = some u ∧ u.id = s.nextId ∧
        u.name = jsTrim input ∧ u.status = .running) := by
  refine ⟨?_, ?_, ?_⟩
  · intro s input now hfind hdig
    have hne : input ≠ [] := by
      intro h
      rw [h] at hdig
      simp [isAllDigits] at hdig
    unfold InteractiveMode.startTask
    rw [if_neg hne, hfind, if_pos hdig]
  · intro s input now hwf hfresh hfind hdig hname
    have hne : input ≠ [] := by
      intro h
      rw [h] at hname
      exact hname rfl
    obtain ⟨s', u, hrun, hget, hid, hnm, hst⟩ := createAndStart_ok now hwf hfresh hname
    refine ⟨s', u, ?_, hget, hid, hnm, hst⟩
    unfold InteractiveMode.startTask
    rw [if_neg hne, hfind, if_neg (by rw [hdig]; exact Bool.false_ne_true)]
    exact hrun
  · intro s visTasks input now hwf hfresh hfind hname
    obtain ⟨s', u, hrun, hget, hid, hnm, hst⟩ := createAndStart_ok now hwf hfresh hname
    refine ⟨s', u, ?_, hget, hid, hnm, hst⟩
    unfold VisualMode.startTaskByName
    rw [hfind]
    exact hrun

/-- Witness for C6: on the example store, line-mode `start 5` reports not-found
without creating anything, and line-mode `start D` creates and starts a task
named "D". -/
theorem C6_witness :
    (InteractiveMode.findTask exStore.tasks ['5'] = none ∧ isAllDigits ['5'] = true ∧
      InteractiveMode.startTask exStore ['5'] 2000 = (exStore, .err "Task with ID not found")) ∧
    (StoreWF exStore ∧ exStore.nextId ∉ exStore.tasks.map Task.id ∧
      InteractiveMode.findTask exStore.tasks ['D'] = none ∧ isAllDigits ['D'] = false ∧
      jsTrim ['D'] ≠ [] ∧
      ∃ s' u, InteractiveMode.startTask exStore ['D'] 2000 = (s', .ok u) ∧
        Storage.getTask s' exStore.nextId = some u ∧ u.id = exStore.nextId ∧
        u.name = jsTrim ['D'] ∧ u.status = .running) := by
  constructor
  · exact ⟨by decide, by decide,
      C6_start_command_resolution.1 exStore ['5'] 2000 (by decide) (by decide)⟩
  · exact ⟨by decide, by decide, by decide, by decide, by decide,
      C6_start_command_resolution.2.1 exStore ['D'] 2000 (by decide) (by decide)
        (by decide) (by decide) (by decide)⟩

end TimeTracker
